import Mathlib

set_option maxRecDepth 10000

/-!
Verification development for the finny hierarchical state machine engine.

The repository ships the declarative builder front-end (`src/finny/src/decl/fsm.rs`)
and the crate documentation (`src/finny/src/lib.rs`); the dispatch engine itself
(Dispatcher, StateStore, EventQueue, RegionManager, TimerService, Inspector) is not
among the provided source files, so those components are modelled here from the
specification and the claims are settled against that model.  The builder is
embedded directly from the source.
-/

namespace Finny

/-- Modelled from the spec: the error taxonomy of §7 (`FsmError`).  The engine
source defining this enum is not under src/; the runtime-relevant structural
variants are taken from the spec's list. -/
inductive FsmError where
  | NotStarted
  | AlreadyStarted
  | QueueOverflow
  | TimerAlreadyArmed
  deriving DecidableEq, Repr

/-- Modelled from the spec: an Event is a typed, immutable payload instance;
it carries no identity beyond its type and fields (§3).  The type is a numeric
tag, the fields are collapsed into one numeric payload. -/
structure Event where
  eventType : Nat
  payload : Nat
  deriving DecidableEq, Repr

/-- Modelled from the spec: Inspector notifications (§4.5): queue-push,
guard-evaluated (with result), action-executed, state-exited, state-entered. -/
inductive Note where
  | queuePush (ev : Event)
  | guardEvaluated (source target : Nat) (result : Bool)
  | actionExecuted (source target : Nat)
  | stateExited (s : Nat)
  | stateEntered (s : Nat)
  deriving DecidableEq, Repr

/-- Modelled from the spec: a transition candidate (§3): source state, triggering
event type, guard evaluated against (event, Context, read-only view of all
regions' current states), action (which may mutate the Context and post further
events into the queue), and target state.  An ordered candidate list is
represented by the order of entries in the TransitionTable's list. -/
structure Transition (Ctx : Type) where
  source : Nat
  eventType : Nat
  guard : Event → Ctx → (Nat → Option Nat) → Bool
  action : Event → Ctx → Ctx × List Event
  target : Nat

/-- Modelled from the spec: the immutable TransitionTable plus static machine
description (§2, §3): region count, one declared initial state per region,
the ordered transition list, per-state entry/exit hooks, and the bounded
EventQueue's capacity. -/
structure FsmDef (Ctx : Type) where
  regionCount : Nat
  initial : Nat → Nat
  transitions : List (Transition Ctx)
  onEntry : Nat → Ctx → Ctx
  onExit : Nat → Ctx → Ctx
  queueCapacity : Nat

/-- Modelled from the spec: the runtime machine instance: shared Context,
StateStore (currently active state per region, `none` before `start`),
the bounded FIFO EventQueue, the started flag, and the accumulated Inspector
notification stream. -/
structure Fsm (Ctx : Type) where
  context : Ctx
  store : Nat → Option Nat
  queue : List Event
  started : Bool
  trace : List Note

variable {Ctx : Type}

/-- Modelled from the spec: constructing a machine stores the supplied context
and runs nothing: no region is active, the queue is empty, no notification has
been emitted (the crate doc example observes the context unchanged after `new`). -/
def FsmDef.new (_d : FsmDef Ctx) (c : Ctx) : Fsm Ctx :=
  { context := c, store := fun _ => none, queue := [], started := false, trace := [] }

/-- Pointwise update of the StateStore at one region index. -/
def setStore (f : Nat → Option Nat) (r : Nat) (v : Option Nat) : Nat → Option Nat :=
  fun x => if x = r then v else f x

/-- Modelled from the spec: `start` establishes the initial state of each region
in order, running its entry hook and recording the state-entered notification. -/
def enterRegions (d : FsmDef Ctx) : List Nat → Fsm Ctx → Fsm Ctx
  | [], m => m
  | r :: rs, m =>
    enterRegions d rs
      { m with
          context := d.onEntry (d.initial r) m.context,
          store := setStore m.store r (some (d.initial r)),
          trace := m.trace ++ [Note.stateEntered (d.initial r)] }

/-- Modelled from the spec: `start(context)` must be called exactly once; a
second call fails with `AlreadyStarted` (§4.1, §7). -/
def FsmDef.start (d : FsmDef Ctx) (m : Fsm Ctx) : Except FsmError (Fsm Ctx) :=
  if m.started then .error .AlreadyStarted
  else .ok { enterRegions d (List.range d.regionCount) m with started := true }

/-- Modelled from the spec: guard resolution for one region (§4.1): scan the
transition list in declaration order for candidates whose source is the region's
current state and whose event type matches; evaluate guards in order, emitting a
guard-evaluated notification per evaluation; the first guard returning true
selects that candidate. -/
def selectTransition (ev : Event) (c : Ctx) (st : Nat → Option Nat) (s : Nat) :
    List (Transition Ctx) → List Note × Option (Transition Ctx)
  | [] => ([], none)
  | t :: rest =>
    if t.source = s ∧ t.eventType = ev.eventType then
      let g := t.guard ev c st
      if g then ([Note.guardEvaluated t.source t.target g], some t)
      else
        let tail := selectTransition ev c st s rest
        (Note.guardEvaluated t.source t.target g :: tail.1, tail.2)
    else selectTransition ev c st s rest

/-- Modelled from the spec: event resolution for one region (§4.1): if no
candidate matches, the event is unhandled for that region and is a silent no-op;
otherwise execute exit hook of the source, the transition's action (returning
the new context and any posted events), entry hook of the target, update the
StateStore, and emit the exited/action/entered notifications.  Exit and entry
hooks fire also on a self-transition. -/
def processRegion (d : FsmDef Ctx) (ev : Event) (r : Nat) (m : Fsm Ctx) :
    Fsm Ctx × List Event :=
  match m.store r with
  | none => (m, [])
  | some s =>
    match selectTransition ev m.context m.store s d.transitions with
    | (notes, none) => ({ m with trace := m.trace ++ notes }, [])
    | (notes, some t) =>
      ({ m with
          context := d.onEntry t.target (t.action ev (d.onExit s m.context)).1,
          store := setStore m.store r (some t.target),
          trace := m.trace ++ notes ++
            [Note.stateExited s, Note.actionExecuted t.source t.target,
             Note.stateEntered t.target] },
       (t.action ev (d.onExit s m.context)).2)

/-- Modelled from the spec: the RegionManager routes one event through every
region in order; regions whose current state declares no matching transition are
left untouched.  Returns the machine plus all events posted by actions, in
post order. -/
def processRegions (d : FsmDef Ctx) (ev : Event) :
    List Nat → Fsm Ctx × List Event → Fsm Ctx × List Event
  | [], acc => acc
  | r :: rs, acc =>
    processRegions d ev rs
      ((processRegion d ev r acc.1).1, acc.2 ++ (processRegion d ev r acc.1).2)

/-- Modelled from the spec: full resolution of one event against all regions. -/
def processEvent (d : FsmDef Ctx) (ev : Event) (m : Fsm Ctx) : Fsm Ctx × List Event :=
  processRegions d ev (List.range d.regionCount) (m, [])

/-- Modelled from the spec: `EventQueue.push` appends at the tail of the bounded
FIFO, emitting the queue-push notification; exceeding the capacity fails with
`QueueOverflow` (§4.1, §7). -/
def push (d : FsmDef Ctx) (ev : Event) (m : Fsm Ctx) : Except FsmError (Fsm Ctx) :=
  if d.queueCapacity < m.queue.length + 1 then .error .QueueOverflow
  else .ok { m with queue := m.queue ++ [ev], trace := m.trace ++ [Note.queuePush ev] }

/-- Push a batch of action-posted events, in post order, stopping at the first
overflow. -/
def pushAll (d : FsmDef Ctx) (evs : List Event) (m : Fsm Ctx) : Except FsmError (Fsm Ctx) :=
  match evs with
  | [] => .ok m
  | e :: rest =>
    match push d e m with
    | .error err => .error err
    | .ok m1 => pushAll d rest m1

/-- Outcome of draining the queue: normal completion, a structural failure
surfaced to the caller, or exhaustion of the step budget (an action cascade that
never quiesces).  Both terminating outcomes carry the machine and the ordered
list of events processed, oldest first. -/
inductive DrainRes (Ctx : Type) where
  | done (m : Fsm Ctx) (processed : List Event)
  | failed (err : FsmError) (m : Fsm Ctx) (processed : List Event)
  | fuelOut

/-- Modelled from the spec: the run-to-completion drain loop (§4.1, §5): pop the
head of the FIFO, resolve it against all regions, append any posted events at
the queue's tail, and continue until the queue is empty.  A queue overflow is
fatal to the dispatch call and clears the queue.  `fuel` bounds the number of
events processed so the model is total. -/
def drain (d : FsmDef Ctx) : Nat → Fsm Ctx → List Event → DrainRes Ctx
  | 0, _, _ => .fuelOut
  | fuel + 1, m, acc =>
    match m.queue with
    | [] => .done m acc
    | e :: rest =>
      match processEvent d e { m with queue := rest } with
      | (m1, posted) =>
        match pushAll d posted m1 with
        | .error err => .failed err { m1 with queue := [] } (acc ++ [e])
        | .ok m2 => drain d fuel m2 (acc ++ [e])

/-- Modelled from the spec: `dispatch(event)` fails with `NotStarted` before
`start`; otherwise it enqueues the event and drains the EventQueue to
completion before returning (§4.1). -/
def FsmDef.dispatch (d : FsmDef Ctx) (fuel : Nat) (m : Fsm Ctx) (ev : Event) : DrainRes Ctx :=
  if m.started then
    match push d ev m with
    | .error err => .failed err { m with queue := [] } []
    | .ok m1 => drain d fuel m1 []
  else .failed .NotStarted m []

/-- One step of replaying an event sequence: dispatch the next event if the run
is still healthy, accumulating the processed-event history. -/
def stepSeq (d : FsmDef Ctx) (fuel : Nat) : DrainRes Ctx → Event → DrainRes Ctx
  | .done m acc, ev =>
    match d.dispatch fuel m ev with
    | .done m1 acc1 => .done m1 (acc ++ acc1)
    | .failed err m1 acc1 => .failed err m1 (acc ++ acc1)
    | .fuelOut => .fuelOut
  | r, _ => r

/-- Replaying a whole event sequence against a freshly constructed and started
machine with the given initial context. -/
def runSeq (d : FsmDef Ctx) (fuel : Nat) (c : Ctx) (evs : List Event) : DrainRes Ctx :=
  match d.start (d.new c) with
  | .ok m0 => evs.foldl (stepSeq d fuel) (.done m0 [])
  | .error err => .failed err (d.new c) []

/-! Concrete machines used to instantiate the general theorems. -/

/-- The `Start` event of the spec's two-state scenario (§8). -/
def StartEv : Event := ⟨0, 0⟩

/-- Modelled from the spec: the §8 scenario machine: one region, states
`Idle = 0` and `Running = 1`, event `Start` with an always-true guard
transitioning Idle to Running, its action incrementing `Context.count`.
No entry/exit hook touches the context, no timer, capacity 16. -/
def exampleDef : FsmDef Nat :=
  { regionCount := 1
    initial := fun _ => 0
    transitions := [⟨0, 0, fun _ _ _ => true, fun _ c => (c + 1, []), 1⟩]
    onEntry := fun _ c => c
    onExit := fun _ c => c
    queueCapacity := 16 }

/-- A machine whose single transition's action posts two further copies of the
event, against a queue of capacity 1: draining it must overflow. -/
def overflowDef : FsmDef Nat :=
  { regionCount := 1
    initial := fun _ => 0
    transitions := [⟨0, 0, fun _ _ _ => true, fun _ c => (c, [⟨0, 0⟩, ⟨0, 0⟩]), 0⟩]
    onEntry := fun _ c => c
    onExit := fun _ c => c
    queueCapacity := 1 }

/-- A two-event chain: in state 0, event type 0 moves to state 1 and its action
posts one event of type 1; in state 1, event type 1 moves back to state 0. -/
def chainDef : FsmDef Nat :=
  { regionCount := 1
    initial := fun _ => 0
    transitions :=
      [⟨0, 0, fun _ _ _ => true, fun _ c => (c + 1, [⟨1, 0⟩]), 1⟩,
       ⟨1, 1, fun _ _ _ => true, fun _ c => (c + 10, []), 0⟩]
    onEntry := fun _ c => c
    onExit := fun _ c => c
    queueCapacity := 16 }

/-- A two-region machine: region 0 starts in state 0, region 1 in state 10;
event type 0 only matches state 0 (region 0), moving it to state 1. -/
def twoRegionDef : FsmDef Nat :=
  { regionCount := 2
    initial := fun r => if r = 0 then 0 else 10
    transitions := [⟨0, 0, fun _ _ _ => true, fun _ c => (c + 1, []), 1⟩]
    onEntry := fun _ c => c
    onExit := fun _ c => c
    queueCapacity := 16 }

/-- Modelled from the spec: the crate doc example of `src/finny/src/lib.rs`
(lines 31-76): context `val` and state-local `n` (collapsed into one pair),
`MyStateA`'s entry hook increments both; initial state `MyStateA = 0`. -/
def docDef : FsmDef (Nat × Nat) :=
  { regionCount := 1
    initial := fun _ => 0
    transitions := []
    onEntry := fun s c => if s = 0 then (c.1 + 1, c.2 + 1) else c
    onExit := fun _ c => c
    queueCapacity := 16 }

/-- A started machine of `overflowDef`, resting in state 0 with an empty queue. -/
def overflowStarted : Fsm Nat :=
  { context := 0, store := fun r => if r = 0 then some 0 else none,
    queue := [], started := true, trace := [] }

/-- A started machine of `chainDef`, resting in state 0 with an empty queue. -/
def chainStarted : Fsm Nat :=
  { context := 0, store := fun r => if r = 0 then some 0 else none,
    queue := [], started := true, trace := [] }

/-- A started machine of `twoRegionDef`: region 0 in state 0, region 1 in
state 10, empty queue. -/
def twoRegionStarted : Fsm Nat :=
  { context := 0,
    store := fun r => if r = 0 then some 0 else if r = 1 then some 10 else none,
    queue := [], started := true, trace := [] }

/-- The machine state left behind by dispatching `StartEv` on
`overflowStarted`: the drain overflows, so this is the failure state. -/
def overflowAfter : Fsm Nat :=
  match overflowDef.dispatch 5 overflowStarted StartEv with
  | .failed _ m _ => m
  | .done m _ => m
  | .fuelOut => overflowDef.new 0

/-- The started `exampleDef` machine produced by `start`. -/
def exM0 : Fsm Nat :=
  match exampleDef.start (exampleDef.new 0) with
  | .ok m => m
  | .error _ => exampleDef.new 0

/-- The `exampleDef` machine after dispatching one `Start` event. -/
def exM1 : Fsm Nat :=
  match exampleDef.dispatch 5 exM0 StartEv with
  | .done m _ => m
  | .failed _ m _ => m
  | .fuelOut => exampleDef.new 0

/-- `chainStarted` with two externally posted events pending: one of type 0
(which will transition and post a type-1 event) and one of type 9 (matched by
no transition). -/
def chainQueued : Fsm Nat :=
  { chainStarted with queue := [⟨0, 0⟩, ⟨9, 9⟩] }

/-- Resolution of the head event of `chainQueued` against all regions: the
resulting machine and the events its action posted. -/
def chainPE : Fsm Nat × List Event :=
  processEvent chainDef ⟨0, 0⟩ { chainQueued with queue := [⟨9, 9⟩] }

/-- The machine after the head event's posted events are appended to the
queue. -/
def chainM3 : Fsm Nat :=
  match pushAll chainDef chainPE.2 chainPE.1 with
  | .ok m => m
  | .error _ => chainStarted

namespace Sub

/-! Modelled from the spec: entry/exit hook ordering across a submachine-bound
composite state (§4.1, §4.3, §8).  The engine source is not under src/; only
the hook ordering is modelled, as a trace of hook invocations. -/

/-- One hook invocation observed during a transition. -/
inductive Hook where
  | exited (s : Nat)
  | entered (s : Nat)
  | actionRun
  deriving DecidableEq, Repr

/-- Modelled from the spec: a submachine binding associates a composite state
with a child machine; for hook ordering only the child's currently active leaf
state and its designated initial state matter. -/
structure SubBinding where
  activeLeaf : Nat
  initialState : Nat
  deriving DecidableEq, Repr

/-- A state that is either plain or submachine-bound (composite). -/
structure CompositeState where
  id : Nat
  sub : Option SubBinding
  deriving DecidableEq, Repr

/-- Modelled from the spec: exiting a state runs innermost-child-first: if the
state is submachine-bound, the child's active leaf exits before the composite
exits (§4.1). -/
def exitHooks (s : CompositeState) : List Hook :=
  match s.sub with
  | some b => [Hook.exited b.activeLeaf, Hook.exited s.id]
  | none => [Hook.exited s.id]

/-- Modelled from the spec: entering a state runs outermost-composite-first: the
composite enters, then its submachine's initial state enters (§4.1). -/
def entryHooks (s : CompositeState) : List Hook :=
  match s.sub with
  | some b => [Hook.entered s.id, Hook.entered b.initialState]
  | none => [Hook.entered s.id]

/-- Modelled from the spec: a transition from `src` to `tgt` runs the exit
hooks of the source, then the transition's action, then the entry hooks of the
target (§4.1). -/
def transitionHooks (src tgt : CompositeState) : List Hook :=
  exitHooks src ++ [Hook.actionRun] ++ entryHooks tgt

end Sub

namespace Timers

/-! Modelled from the spec: the TimerService (§4.4, §3, §8).  The engine source
is not under src/.  A state's timer is one-shot: `pending` holds the deadline of
the current arming, expiry appends exactly one timeout marker to the queue and
clears the arming; `disarm` cancels a pending expiry.  Time instants are
naturals; the queue records the deadlines of fired timeouts. -/

/-- Modelled from the spec: `arm(state_id, duration)` schedules a one-shot
expiry at `now + duration`; re-arming an already-armed timer for the same
occupancy fails with `TimerAlreadyArmed`. -/
def arm (t : Option Nat) (now dur : Nat) : Except FsmError (Option Nat) :=
  match t with
  | some _ => .error .TimerAlreadyArmed
  | none => .ok (some (now + dur))

/-- Modelled from the spec: `disarm(state_id)` cancels a pending expiry. -/
def disarm (_t : Option Nat) : Option Nat := none

/-- Modelled from the spec: observing the clock at instant `now`: if an armed
deadline has passed, synthesize one timeout event onto the queue and clear the
arming (one-shot); otherwise nothing happens. -/
def tick (t : Option Nat) (now : Nat) (q : List Nat) : Option Nat × List Nat :=
  match t with
  | some dl => if dl ≤ now then (none, q ++ [dl]) else (t, q)
  | none => (t, q)

/-- Folding `tick` over a list of observation instants. -/
def run (t : Option Nat) (times : List Nat) (q : List Nat) : Option Nat × List Nat :=
  match times with
  | [] => (t, q)
  | n :: rest =>
    run (tick t n q).1 rest (tick t n q).2

end Timers

end Finny

namespace decl

/-! The builder front-end, embedded from `src/finny/src/decl/fsm.rs`.  Every
`PhantomData` field is a zero-sized unit value; `&mut self` methods with empty
bodies are functions returning the receiver unchanged. -/

/-- Embeds `FsmStateBuilder` (all fields `PhantomData`). -/
structure FsmStateBuilder where
  _state : Unit
  _fsm : Unit
  _context : Unit
  deriving DecidableEq, Repr

/-- Embeds `FsmSubMachineBuilder`: three `PhantomData` fields plus the nested
state builder. -/
structure FsmSubMachineBuilder where
  _fsm : Unit
  _ctx : Unit
  _sub : Unit
  _state_builder : FsmStateBuilder
  deriving DecidableEq, Repr

/-- Embeds `FsmBuilder` (fields `_fsm`, `_context`, both `PhantomData`). -/
structure FsmBuilder where
  _fsm : Unit
  _context : Unit
  deriving DecidableEq, Repr

/-- Embeds `BuiltFsm`, the unit-like struct returned by `build`. -/
structure BuiltFsm where
  deriving DecidableEq, Repr

/-- Embeds `FsmBuilder::initial_state`: empty body, mutates nothing. -/
def FsmBuilder.initial_state (b : FsmBuilder) : FsmBuilder := b

/-- Embeds `FsmBuilder::initial_states`: empty body, mutates nothing. -/
def FsmBuilder.initial_states (b : FsmBuilder) : FsmBuilder := b

/-- Embeds `FsmBuilder::events_debug`: empty body, mutates nothing. -/
def FsmBuilder.events_debug (b : FsmBuilder) : FsmBuilder := b

/-- Embeds `FsmBuilder::state`: returns a fresh `FsmStateBuilder` of
`PhantomData` defaults, leaving the receiver unchanged. -/
def FsmBuilder.state (b : FsmBuilder) : FsmBuilder × FsmStateBuilder :=
  (b, { _state := (), _fsm := (), _context := () })

/-- Embeds `FsmBuilder::sub_machine`: returns a fresh `FsmSubMachineBuilder`
of `PhantomData` defaults, leaving the receiver unchanged. -/
def FsmBuilder.sub_machine (b : FsmBuilder) : FsmBuilder × FsmSubMachineBuilder :=
  (b,
   { _fsm := (), _ctx := (), _sub := (),
     _state_builder := { _state := (), _fsm := (), _context := () } })

/-- Embeds `FsmBuilder::build`: consumes the builder, unconditionally returns
`BuiltFsm` with no validation. -/
def FsmBuilder.build (_b : FsmBuilder) : BuiltFsm := {}

/-- One declaration-method call on the builder, receiver-position only. -/
inductive BuilderOp where
  | initialStateOp
  | initialStatesOp
  | eventsDebugOp
  | stateOp
  | subMachineOp
  deriving DecidableEq, Repr

/-- Effect of one declaration-method call on the receiver builder. -/
def applyOp (b : FsmBuilder) : BuilderOp → FsmBuilder
  | .initialStateOp => b.initial_state
  | .initialStatesOp => b.initial_states
  | .eventsDebugOp => b.events_debug
  | .stateOp => b.state.1
  | .subMachineOp => b.sub_machine.1

/-- Effect of a whole sequence of declaration-method calls. -/
def applyOps (b : FsmBuilder) (ops : List BuilderOp) : FsmBuilder :=
  match ops with
  | [] => b
  | op :: rest => applyOps (applyOp b op) rest

end decl

namespace Finny

/-! Theorems settling the claims. -/

/-- A successful push appends the event at the tail of the FIFO and touches
nothing but the queue and the notification stream. -/
theorem push_ok {d : FsmDef Ctx} {ev : Event} {m m' : Fsm Ctx}
    (h : push d ev m = .ok m') :
    m'.queue = m.queue ++ [ev] ∧ m'.store = m.store ∧ m'.started = m.started ∧
    m'.context = m.context := by
  unfold push at h
  split at h
  · exact absurd h (by simp)
  · injection h with h1
    subst h1
    exact ⟨rfl, rfl, rfl, rfl⟩

/-- The only failure `push` can produce is `QueueOverflow`. -/
theorem push_error {d : FsmDef Ctx} {ev : Event} {m : Fsm Ctx} {err : FsmError}
    (h : push d ev m = .error err) : err = .QueueOverflow := by
  unfold push at h
  split at h
  · injection h with h1; exact h1.symm
  · exact absurd h (by simp)

/-- A successful batch push appends the whole batch, in order, at the tail. -/
theorem pushAll_ok {d : FsmDef Ctx} {evs : List Event} {m m' : Fsm Ctx}
    (h : pushAll d evs m = .ok m') :
    m'.queue = m.queue ++ evs ∧ m'.store = m.store ∧ m'.started = m.started ∧
    m'.context = m.context := by
  induction evs generalizing m with
  | nil =>
    unfold pushAll at h
    injection h with h1
    subst h1
    exact ⟨by simp, rfl, rfl, rfl⟩
  | cons e rest ih =>
    unfold pushAll at h
    cases hp : push d e m with
    | error err => rw [hp] at h; exact absurd h (by simp)
    | ok m1 =>
      rw [hp] at h
      obtain ⟨q1, s1, st1, c1⟩ := push_ok hp
      obtain ⟨q2, s2, st2, c2⟩ := ih h
      exact ⟨by rw [q2, q1]; simp, by rw [s2, s1], by rw [st2, st1], by rw [c2, c1]⟩

/-- The only failure `pushAll` can produce is `QueueOverflow`. -/
theorem pushAll_error {d : FsmDef Ctx} {evs : List Event} {m : Fsm Ctx} {err : FsmError}
    (h : pushAll d evs m = .error err) : err = .QueueOverflow := by
  induction evs generalizing m with
  | nil => unfold pushAll at h; exact absurd h (by simp)
  | cons e rest ih =>
    unfold pushAll at h
    cases hp : push d e m with
    | error e2 =>
      rw [hp] at h
      injection h with h1
      subst h1
      exact push_error hp
    | ok m1 => rw [hp] at h; exact ih h

/-- A failing drain fails with `QueueOverflow` and leaves the queue cleared. -/
theorem drain_failed {d : FsmDef Ctx} {fuel : Nat} {m m' : Fsm Ctx}
    {acc acc' : List Event} {err : FsmError}
    (h : drain d fuel m acc = .failed err m' acc') :
    err = .QueueOverflow ∧ m'.queue = [] := by
  induction fuel generalizing m acc with
  | zero => exact absurd h (by simp [drain])
  | succ fuel ih =>
    unfold drain at h
    split at h
    · exact absurd h (by simp)
    · split at h
      split at h
      · rename_i m1 posted hpe err2 hp
        injection h with h1 h2 h3
        subst h1
        subst h2
        exact ⟨pushAll_error hp, rfl⟩
      · rename_i m1 posted hpe m2 hp
        exact ih h

/-- A failing dispatch either failed `NotStarted` before touching the machine,
or failed `QueueOverflow` with the queue cleared. -/
theorem dispatch_failed {d : FsmDef Ctx} {fuel : Nat} {m m' : Fsm Ctx}
    {ev : Event} {acc' : List Event} {err : FsmError}
    (h : d.dispatch fuel m ev = .failed err m' acc') :
    (err = .NotStarted ∧ m' = m) ∨ (err = .QueueOverflow ∧ m'.queue = []) := by
  unfold FsmDef.dispatch at h
  split at h
  · cases hp : push d ev m with
    | error e2 =>
      rw [hp] at h
      injection h with h1 h2 h3
      subst h1
      subst h2
      exact Or.inr ⟨push_error hp, rfl⟩
    | ok m1 =>
      rw [hp] at h
      exact Or.inr (drain_failed h)
  · injection h with h1 h2 h3
    exact Or.inl ⟨h1.symm, h2.symm⟩

/-- Resolving an event against one region never touches the EventQueue. -/
theorem processRegion_queue (d : FsmDef Ctx) (ev : Event) (r : Nat) (m : Fsm Ctx) :
    ((processRegion d ev r m).1).queue = m.queue := by
  unfold processRegion
  split
  · rfl
  · split <;> rfl

/-- Routing an event through a list of regions never touches the EventQueue. -/
theorem processRegions_queue (d : FsmDef Ctx) (ev : Event) (rs : List Nat)
    (acc : Fsm Ctx × List Event) :
    ((processRegions d ev rs acc).1).queue = (acc.1).queue := by
  induction rs generalizing acc with
  | nil => rfl
  | cons r rest ih =>
    unfold processRegions
    rw [ih]
    exact processRegion_queue d ev r acc.1

/-- Full event resolution never touches the EventQueue: only the drain loop
pops it and only `pushAll` appends to it. -/
theorem processEvent_queue (d : FsmDef Ctx) (ev : Event) (m : Fsm Ctx) :
    ((processEvent d ev m).1).queue = m.queue :=
  processRegions_queue d ev (List.range d.regionCount) (m, [])

/-- Claim C2: run-to-completion with strict FIFO order: when the queue holds
`e :: rest`, one drain step processes `e` now — appending it to the processed
history before anything else runs — resolves it completely against all regions,
and appends every event posted by its actions at the tail of the queue, after
all previously queued events: the continuation drains `rest ++ posted`.  Hence
an event posted during the cascade of `e` (by an action, or synthesized by a
timer expiry into the same queue) is processed strictly after `e`'s entire
cascade step and after everything queued earlier, with no priority
reordering. -/
theorem drain_head_first_fifo (d : FsmDef Ctx) (fuel : Nat) (m : Fsm Ctx)
    (acc : List Event) (e : Event) (rest : List Event) (m2 m3 : Fsm Ctx)
    (posted : List Event)
    (hq : m.queue = e :: rest)
    (hpe : processEvent d e { m with queue := rest } = (m2, posted))
    (hpa : pushAll d posted m2 = .ok m3) :
    m3.queue = rest ++ posted ∧
    drain d (fuel + 1) m acc = drain d fuel m3 (acc ++ [e]) := by
  have hq2 : m2.queue = rest := by
    have hpq := processEvent_queue d e { m with queue := rest }
    rw [hpe] at hpq
    exact hpq
  obtain ⟨hq3, -, -, -⟩ := pushAll_ok hpa
  refine ⟨by rw [hq3, hq2], ?_⟩
  conv_lhs => rw [drain]
  rw [hq]
  dsimp only
  rw [hpe]
  dsimp only
  rw [hpa]

/-- Witness for C2 on `chainDef`: with `⟨0,0⟩` and then `⟨9,9⟩` queued, the
drain processes `⟨0,0⟩` first and appends its posted `⟨1,0⟩` after `⟨9,9⟩`. -/
theorem drain_head_first_fifo_witness :
    chainM3.queue = [⟨9, 9⟩] ++ chainPE.2 ∧
    drain chainDef 5 chainQueued [] = drain chainDef 4 chainM3 ([] ++ [⟨0, 0⟩]) :=
  drain_head_first_fifo chainDef 4 chainQueued [] ⟨0, 0⟩ [⟨9, 9⟩] chainPE.1 chainM3
    chainPE.2 rfl rfl rfl

/-- Claim C4: structural errors are always surfaced as typed failures: `start`
on an already-started machine returns `AlreadyStarted`; `dispatch` before
`start` returns `NotStarted`; and any failing dispatch either failed
`NotStarted` leaving the machine untouched, or overflowed the EventQueue while
draining, which is fatal to that dispatch call, reports `QueueOverflow`, and
leaves the queue cleared.  No structural failure is silently ignored. -/
theorem structural_errors_surfaced (d : FsmDef Ctx) (fuel : Nat) (m m' : Fsm Ctx)
    (ev : Event) :
    (m.started = true → d.start m = .error .AlreadyStarted) ∧
    (m.started = false → d.dispatch fuel m ev = .failed .NotStarted m []) ∧
    (∀ err acc, d.dispatch fuel m ev = .failed err m' acc →
       (err = .NotStarted ∧ m' = m) ∨ (err = .QueueOverflow ∧ m'.queue = [])) := by
  refine ⟨?_, ?_, fun err acc h => dispatch_failed h⟩
  · intro h
    unfold FsmDef.start
    simp [h]
  · intro h
    unfold FsmDef.dispatch
    simp [h]

/-- Witness for C4: `overflowStarted` is already started so a second `start`
fails; a fresh machine rejects `dispatch`; and dispatching on `overflowDef`
(whose action posts two events against capacity 1) overflows, clearing the
queue. -/
theorem structural_errors_surfaced_witness :
    overflowDef.start overflowStarted = .error .AlreadyStarted ∧
    overflowDef.dispatch 5 (overflowDef.new 0) StartEv =
      .failed .NotStarted (overflowDef.new 0) [] ∧
    overflowAfter.queue = [] := by
  refine ⟨(structural_errors_surfaced overflowDef 5 overflowStarted overflowAfter StartEv).1 rfl,
    (structural_errors_surfaced overflowDef 5 (overflowDef.new 0) overflowAfter StartEv).2.1 rfl,
    ?_⟩
  rcases (structural_errors_surfaced overflowDef 5 overflowStarted overflowAfter
      StartEv).2.2 .QueueOverflow [StartEv] rfl with ⟨h1, -⟩ | ⟨-, h2⟩
  · exact absurd h1 (by decide)
  · exact h2

/-- If no transition in the list leaves the given state on the given event
type, resolution selects nothing and evaluates no guard. -/
theorem selectTransition_none {ev : Event} {c : Ctx} {st : Nat → Option Nat} {s : Nat}
    {ts : List (Transition Ctx)}
    (h : ∀ t ∈ ts, ¬(t.source = s ∧ t.eventType = ev.eventType)) :
    selectTransition ev c st s ts = ([], none) := by
  induction ts with
  | nil => rfl
  | cons t rest ih =>
    unfold selectTransition
    rw [if_neg (h t (List.mem_cons_self t rest))]
    exact ih fun t2 ht2 => h t2 (List.mem_cons_of_mem t ht2)

/-- Resolving one region only ever writes that region's own StateStore slot. -/
theorem processRegion_store_other {d : FsmDef Ctx} {ev : Event} {r rB : Nat}
    {m : Fsm Ctx} (hne : r ≠ rB) :
    ((processRegion d ev r m).1).store rB = m.store rB := by
  unfold processRegion
  split
  · rfl
  · split
    · rfl
    · dsimp only [setStore]
      rw [if_neg fun hx => hne hx.symm]

/-- A region whose current state declares no transition for the event's type is
left untouched by the resolution of that event. -/
theorem processRegion_unmatched {d : FsmDef Ctx} {ev : Event} {r : Nat} {m : Fsm Ctx}
    (h : ∀ t ∈ d.transitions, t.eventType = ev.eventType → some t.source ≠ m.store r) :
    ((processRegion d ev r m).1).store r = m.store r := by
  unfold processRegion
  cases hs : m.store r with
  | none => exact hs
  | some s =>
    dsimp only
    rw [selectTransition_none fun t ht hm =>
      h t ht hm.2 (by rw [hs]; exact congrArg some hm.1)]
    exact hs

/-- Routing invariant: a region slot that no transition of the event's type can
leave keeps its value through the whole multi-region routing pass. -/
theorem processRegions_store (d : FsmDef Ctx) (ev : Event) (rB : Nat) (v : Option Nat)
    (rs : List Nat) (acc : Fsm Ctx × List Event)
    (hacc : (acc.1).store rB = v)
    (h : ∀ t ∈ d.transitions, t.eventType = ev.eventType → some t.source ≠ v) :
    ((processRegions d ev rs acc).1).store rB = v := by
  induction rs generalizing acc with
  | nil => exact hacc
  | cons r rest ih =>
    unfold processRegions
    apply ih
    by_cases hr : r = rB
    · subst hr
      rw [processRegion_unmatched (by rw [hacc]; exact h)]
      exact hacc
    · rw [processRegion_store_other hr]
      exact hacc

/-- Claim C5: orthogonal independence: for any machine and any event, every
region whose current state has no declared transition for that event's type
keeps its current state unchanged when the event is dispatched through the
RegionManager — only regions with a matching transition can move. -/
theorem unmatched_region_untouched (d : FsmDef Ctx) (ev : Event) (m : Fsm Ctx)
    (rB : Nat)
    (h : ∀ t ∈ d.transitions, t.eventType = ev.eventType → some t.source ≠ m.store rB) :
    ((processEvent d ev m).1).store rB = m.store rB :=
  processRegions_store d ev rB (m.store rB) (List.range d.regionCount) (m, []) rfl h

/-- Witness for C5 on the two-region machine: event type 0 only matches region
0's current state, so region 1 stays in state 10. -/
theorem unmatched_region_untouched_witness :
    ((processEvent twoRegionDef StartEv twoRegionStarted).1).store 1 =
      twoRegionStarted.store 1 := by
  apply unmatched_region_untouched
  intro t ht hev
  have hts : twoRegionDef.transitions =
      [⟨0, 0, fun _ _ _ => true, fun _ c => (c + 1, []), 1⟩] := rfl
  rw [hts] at ht
  rcases List.mem_singleton.mp ht with rfl
  intro hcontra
  simp [twoRegionStarted] at hcontra

/-- Claim C1: dispatch is deterministic: replaying the same event sequence
against a freshly started machine with the same initial Context yields the same
outcome — in particular the same final StateStore contents per region, the same
Inspector notification stream, and the same processed-event history.  In this
model the engine is a pure function of the static definition, the step budget,
the initial context and the event list, so no other input can influence it. -/
theorem runSeq_deterministic {Ctx : Type} (d : FsmDef Ctx) (fuel : Nat)
    (c1 c2 : Ctx) (evs1 evs2 : List Event)
    (hc : c1 = c2) (he : evs1 = evs2) :
    runSeq d fuel c1 evs1 = runSeq d fuel c2 evs2 ∧
    (∀ m1 p1 m2 p2, runSeq d fuel c1 evs1 = .done m1 p1 →
       runSeq d fuel c2 evs2 = .done m2 p2 →
       (∀ r, m1.store r = m2.store r) ∧ m1.trace = m2.trace ∧ p1 = p2) := by
  subst hc; subst he
  refine ⟨rfl, ?_⟩
  intro m1 p1 m2 p2 h1 h2
  rw [h1] at h2
  injection h2 with hm hp
  subst hm; subst hp
  exact ⟨fun r => rfl, rfl, rfl⟩

/-- Witness for C1 at a concrete machine, context and event sequence. -/
theorem runSeq_deterministic_witness :
    runSeq exampleDef 5 (0 : Nat) [StartEv] = runSeq exampleDef 5 0 [StartEv] :=
  (runSeq_deterministic exampleDef 5 0 0 [StartEv] [StartEv] rfl rfl).1

/-- Claim C3: the spec's two-state scenario: after `start` the active state is
Idle (0) and the count is 0; `dispatch Start` succeeds, moves to Running (1) and
increments the count to 1; a second `dispatch Start` in Running, where no
transition is declared for the event, also succeeds, is a silent no-op for the
state, and leaves the count unchanged. -/
theorem example_idle_running_scenario :
    ∃ m0 m1 m2,
      exampleDef.start (exampleDef.new 0) = .ok m0 ∧
      m0.store 0 = some 0 ∧ m0.context = 0 ∧
      exampleDef.dispatch 5 m0 StartEv = .done m1 [StartEv] ∧
      m1.store 0 = some 1 ∧ m1.context = 1 ∧
      exampleDef.dispatch 5 m1 StartEv = .done m2 [StartEv] ∧
      m2.store 0 = some 1 ∧ m2.context = 1 := by
  refine ⟨_, _, _, rfl, rfl, rfl, rfl, rfl, rfl, rfl, rfl, rfl⟩

/-- Claim C6: on a transition between submachine-bound composite states, the
hooks run in the order: child machine's active leaf exit, composite source
exit, transition action, composite target entry, target submachine's initial
state entry — exit is innermost-child-first, entry is outermost-composite-first. -/
theorem transition_hook_order (leaf childInit cid tid tleaf tinit : Nat) :
    Sub.transitionHooks ⟨cid, some ⟨leaf, childInit⟩⟩ ⟨tid, some ⟨tleaf, tinit⟩⟩ =
      [Sub.Hook.exited leaf, Sub.Hook.exited cid, Sub.Hook.actionRun,
       Sub.Hook.entered tid, Sub.Hook.entered tinit] := rfl

/-- A disarmed timer never synthesizes a timeout, whatever the clock does. -/
theorem tick_run_none (ts : List Nat) : ∀ q : List Nat, Timers.run none ts q = (none, q) := by
  induction ts with
  | nil => intro q; rfl
  | cons n rest ih => intro q; exact ih q

/-- Observing the clock strictly before the deadline does nothing. -/
theorem tick_lt {dl n : Nat} (q : List Nat) (h : n < dl) :
    Timers.tick (some dl) n q = (some dl, q) := by
  unfold Timers.tick
  dsimp only
  rw [if_neg (Nat.not_le.mpr h)]

/-- Observing the clock at or past the deadline fires the one-shot timeout and
clears the arming. -/
theorem tick_ge {dl n : Nat} (q : List Nat) (h : dl ≤ n) :
    Timers.tick (some dl) n q = (none, q ++ [dl]) := by
  unfold Timers.tick
  dsimp only
  rw [if_pos h]

/-- As long as every observation instant is before the deadline, an armed timer
stays armed and the queue is untouched. -/
theorem run_not_expired {dl : Nat} (ts : List Nat) :
    ∀ q : List Nat, (∀ x ∈ ts, x < dl) → Timers.run (some dl) ts q = (some dl, q) := by
  induction ts with
  | nil => intro q _; rfl
  | cons n rest ih =>
    intro q h
    unfold Timers.run
    rw [tick_lt q (h n (List.mem_cons_self n rest))]
    exact ih q fun x hx => h x (List.mem_cons_of_mem n hx)

/-- One arming appends at most one timeout to the queue, however many
observation instants elapse. -/
theorem run_queue_cases {dl : Nat} (ts : List Nat) :
    ∀ q : List Nat,
    (Timers.run (some dl) ts q).2 = q ∨ (Timers.run (some dl) ts q).2 = q ++ [dl] := by
  induction ts with
  | nil => intro q; exact Or.inl rfl
  | cons n rest ih =>
    intro q
    by_cases hn : dl ≤ n
    · right
      unfold Timers.run
      rw [tick_ge q hn]
      dsimp only
      rw [tick_run_none]
    · unfold Timers.run
      rw [tick_lt q (Nat.lt_of_not_le hn)]
      exact ih q

/-- If some observation instant reaches the deadline, the arming fires exactly
once. -/
theorem run_fires {dl : Nat} (ts : List Nat) :
    ∀ q : List Nat, (∃ x ∈ ts, dl ≤ x) →
    (Timers.run (some dl) ts q).2 = q ++ [dl] := by
  induction ts with
  | nil =>
    intro q h
    obtain ⟨x, hx, -⟩ := h
    exact absurd hx (List.not_mem_nil x)
  | cons n rest ih =>
    intro q h
    by_cases hn : dl ≤ n
    · unfold Timers.run
      rw [tick_ge q hn]
      dsimp only
      rw [tick_run_none]
    · unfold Timers.run
      rw [tick_lt q (Nat.lt_of_not_le hn)]
      dsimp only
      apply ih
      obtain ⟨x, hx, hdx⟩ := h
      rcases List.mem_cons.mp hx with rfl | hx2
      · exact absurd hdx hn
      · exact ⟨x, hx2, hdx⟩

/-- Claim C7: one-shot timers: arming at `t0` for `dur` and exiting the state
(disarm) before the deadline means no timeout event ever reaches the queue —
neither before the disarm nor at any later instant; and while the state stays
occupied, one arming contributes at most one synthesized timeout to the queue
however much time elapses, and exactly one once any observation instant reaches
the deadline. -/
theorem timer_one_shot_cancel (t0 dur : Nat) (ts1 ts2 ts : List Nat) (q : List Nat) :
    ((∀ x ∈ ts1, x < t0 + dur) →
       Timers.run (some (t0 + dur)) ts1 q = (some (t0 + dur), q) ∧
       Timers.run (Timers.disarm (Timers.run (some (t0 + dur)) ts1 q).1) ts2 q =
         (none, q)) ∧
    ((Timers.run (some (t0 + dur)) ts q).2 = q ∨
       (Timers.run (some (t0 + dur)) ts q).2 = q ++ [t0 + dur]) ∧
    ((∃ x ∈ ts, t0 + dur ≤ x) →
       (Timers.run (some (t0 + dur)) ts q).2 = q ++ [t0 + dur]) := by
  refine ⟨fun h => ⟨run_not_expired ts1 q h, tick_run_none ts2 q⟩,
    run_queue_cases ts q, fun h => run_fires ts q h⟩

/-- Witness for C7: a 100ms timer armed at 0, observed at 50, disarmed, then
observed at 200: the queue stays empty; the same timer left armed and observed
at 150 and 300 fires exactly once. -/
theorem timer_one_shot_cancel_witness :
    (Timers.run (some 100) [50] [] = (some 100, []) ∧
     Timers.run (Timers.disarm (Timers.run (some 100) [50] []).1) [200] [] =
       (none, [])) ∧
    ((Timers.run (some 100) [150, 300] []).2 = [] ∨
       (Timers.run (some 100) [150, 300] []).2 = [] ++ [100]) ∧
    (Timers.run (some 100) [150, 300] []).2 = [] ++ [100] := by
  have h := timer_one_shot_cancel 0 100 [50] [200] [150, 300] []
  exact ⟨h.1 (by decide), h.2.1, h.2.2 (by decide)⟩

/-- Resolving one region preserves every occupied StateStore slot: a slot is
only ever rewritten to another occupied value. -/
theorem processRegion_isSome {d : FsmDef Ctx} {ev : Event} {r x : Nat} {m : Fsm Ctx}
    (h : (m.store x).isSome = true) :
    (((processRegion d ev r m).1).store x).isSome = true := by
  unfold processRegion
  split
  · exact h
  · split
    · exact h
    · dsimp only [setStore]
      split
      · rfl
      · exact h

/-- Routing through a region list preserves occupied StateStore slots. -/
theorem processRegions_isSome {d : FsmDef Ctx} {ev : Event} {x : Nat}
    (rs : List Nat) :
    ∀ acc : Fsm Ctx × List Event, ((acc.1).store x).isSome = true →
    (((processRegions d ev rs acc).1).store x).isSome = true := by
  induction rs with
  | nil => intro acc h; exact h
  | cons r rest ih =>
    intro acc h
    unfold processRegions
    exact ih _ (processRegion_isSome h)

/-- Full event resolution preserves occupied StateStore slots. -/
theorem processEvent_isSome {d : FsmDef Ctx} {ev : Event} {x : Nat} {m : Fsm Ctx}
    (h : (m.store x).isSome = true) :
    (((processEvent d ev m).1).store x).isSome = true :=
  processRegions_isSome (List.range d.regionCount) (m, []) h

/-- A completed drain preserves occupied StateStore slots. -/
theorem drain_done_isSome {d : FsmDef Ctx} {x : Nat} :
    ∀ (fuel : Nat) (m m' : Fsm Ctx) (acc acc' : List Event),
    drain d fuel m acc = .done m' acc' →
    (m.store x).isSome = true → (m'.store x).isSome = true := by
  intro fuel
  induction fuel with
  | zero => intro m m' acc acc' h; exact absurd h (by simp [drain])
  | succ fuel ih =>
    intro m m' acc acc' h hs
    unfold drain at h
    cases hq : m.queue with
    | nil =>
      rw [hq] at h
      dsimp only at h
      injection h with h1 h2
      subst h1
      exact hs
    | cons e rest =>
      rw [hq] at h
      dsimp only at h
      rcases hpe : processEvent d e { m with queue := rest } with ⟨m1, posted⟩
      rw [hpe] at h
      dsimp only at h
      cases hp : pushAll d posted m1 with
      | error err =>
        rw [hp] at h
        exact absurd h (by simp)
      | ok m2 =>
        rw [hp] at h
        apply ih _ _ _ _ h
        obtain ⟨-, hst, -, -⟩ := pushAll_ok hp
        have hx : (((processEvent d e { m with queue := rest }).1).store x).isSome = true :=
          processEvent_isSome hs
        rw [hpe] at hx
        rw [hst]
        exact hx

/-- A successfully completed dispatch preserves occupied StateStore slots. -/
theorem dispatch_done_isSome {d : FsmDef Ctx} {fuel : Nat} {m m' : Fsm Ctx}
    {ev : Event} {acc' : List Event} {x : Nat}
    (h : d.dispatch fuel m ev = .done m' acc')
    (hs : (m.store x).isSome = true) : (m'.store x).isSome = true := by
  unfold FsmDef.dispatch at h
  split at h
  · cases hp : push d ev m with
    | error e2 => rw [hp] at h; exact absurd h (by simp)
    | ok m1 =>
      rw [hp] at h
      obtain ⟨-, hst, -, -⟩ := push_ok hp
      exact drain_done_isSome fuel m1 m' [] acc' h (by rw [hst]; exact hs)
  · exact absurd h (by simp)

/-- Entering the initial states occupies every region slot that is entered, and
keeps every slot that was already occupied. -/
theorem enterRegions_isSome {d : FsmDef Ctx} (rs : List Nat) :
    ∀ (m : Fsm Ctx) (r : Nat), (r ∈ rs ∨ (m.store r).isSome = true) →
    ((enterRegions d rs m).store r).isSome = true := by
  induction rs with
  | nil =>
    intro m r h
    rcases h with h | h
    · exact absurd h (List.not_mem_nil r)
    · exact h
  | cons r0 rest ih =>
    intro m r h
    unfold enterRegions
    apply ih
    rcases h with h | h
    · rcases List.mem_cons.mp h with rfl | h2
      · right
        dsimp only [setStore]
        rw [if_pos rfl]
        rfl
      · exact Or.inl h2
    · right
      dsimp only [setStore]
      split
      · rfl
      · exact h

/-- Claim C8: exactly one active state per region at every observation point
between dispatches: right after `start` every region of the machine holds
exactly one active state index (the StateStore maps each region to a single
`Option` slot, so more than one active state per region is impossible by
construction, and `isSome` rules out zero), and every completed `dispatch`
preserves this.  The transient unoccupied slot exists only before `start`,
never at the public interface of a started machine. -/
theorem one_active_state_per_region {CtxT : Type} (d : FsmDef CtxT) :
    (∀ (c : CtxT) (m0 : Fsm CtxT), d.start (d.new c) = .ok m0 →
       ∀ r, r < d.regionCount → (m0.store r).isSome = true) ∧
    (∀ (fuel : Nat) (m m' : Fsm CtxT) (ev : Event) (acc : List Event),
       (∀ r, r < d.regionCount → (m.store r).isSome = true) →
       d.dispatch fuel m ev = .done m' acc →
       ∀ r, r < d.regionCount → (m'.store r).isSome = true) := by
  constructor
  · intro c m0 h r hr
    unfold FsmDef.start at h
    split at h
    · exact absurd h (by simp)
    · injection h with h1
      subst h1
      exact enterRegions_isSome (List.range d.regionCount) (d.new c) r
        (Or.inl (List.mem_range.mpr hr))
  · intro fuel m m' ev acc hall h r hr
    exact dispatch_done_isSome h (hall r hr)

/-- Witness for C8 on `exampleDef`: after `start` and again after a completed
dispatch, the single region holds an active state. -/
theorem one_active_state_per_region_witness :
    (∀ r, r < exampleDef.regionCount → (exM0.store r).isSome = true) ∧
    (∀ r, r < exampleDef.regionCount → (exM1.store r).isSome = true) := by
  have h0 := (one_active_state_per_region exampleDef).1 0 exM0 rfl
  exact ⟨h0, (one_active_state_per_region exampleDef).2 5 exM0 exM1 StartEv [StartEv] h0 rfl⟩

/-- Claim C10: `new(context)` runs no entry hooks: the stored context equals the
passed-in value, the Inspector stream is empty and the machine is not started;
the initial state's entry hook effects (on the crate doc example's `val` and
`n`, both 0 after `new`) become visible only once `start` runs, which emits the
state-entered notification and applies the hook. -/
theorem new_runs_no_hooks :
    (∀ (Ctx : Type) (d : FsmDef Ctx) (c : Ctx),
       (d.new c).context = c ∧ (d.new c).trace = [] ∧ (d.new c).started = false) ∧
    (docDef.new (0, 0)).context = (0, 0) ∧ (docDef.new (0, 0)).trace = [] ∧
    ∃ m0, docDef.start (docDef.new (0, 0)) = .ok m0 ∧
      m0.context = (1, 1) ∧ m0.trace = [Note.stateEntered 0] := by
  refine ⟨fun Ctx d c => ⟨rfl, rfl, rfl⟩, rfl, rfl, _, rfl, rfl, rfl⟩

end Finny

namespace decl

theorem applyOp_id (b : FsmBuilder) (op : BuilderOp) : applyOp b op = b := by
  cases op <;> rfl

theorem applyOps_id (b : FsmBuilder) (ops : List BuilderOp) : applyOps b ops = b := by
  induction ops generalizing b with
  | nil => rfl
  | cons op rest ih => simp [applyOps, applyOp_id, ih]

/-- Claim C9: every `FsmBuilder` declaration method is a runtime no-op: any
sequence of `initial_state`, `initial_states`, `events_debug`, `state` and
`sub_machine` calls leaves the builder unchanged, `build` unconditionally
returns `BuiltFsm` with no validation, and the builder and the returned
sub-builders hold no runtime data at all (each of those types has exactly one
value, its `PhantomData` fields being zero-sized). -/
theorem builder_runtime_noop (b : FsmBuilder) (ops : List BuilderOp) :
    applyOps b ops = b ∧
    (applyOps b ops).build = BuiltFsm.mk ∧
    (∀ b1 b2 : FsmBuilder, b1 = b2) ∧
    (∀ s1 s2 : FsmStateBuilder, s1 = s2) ∧
    (∀ x1 x2 : FsmSubMachineBuilder, x1 = x2) ∧
    (∀ b1 : FsmBuilder, b1.state.1 = b1 ∧ b1.sub_machine.1 = b1) := by
  refine ⟨applyOps_id b ops, rfl, ?_, ?_, ?_, fun b1 => ⟨rfl, rfl⟩⟩
  · intro b1 b2
    obtain ⟨⟨⟩, ⟨⟩⟩ := b1
    obtain ⟨⟨⟩, ⟨⟩⟩ := b2
    rfl
  · intro s1 s2
    obtain ⟨⟨⟩, ⟨⟩, ⟨⟩⟩ := s1
    obtain ⟨⟨⟩, ⟨⟩, ⟨⟩⟩ := s2
    rfl
  · intro x1 x2
    obtain ⟨⟨⟩, ⟨⟩, ⟨⟩, ⟨⟨⟩, ⟨⟩, ⟨⟩⟩⟩ := x1
    obtain ⟨⟨⟩, ⟨⟩, ⟨⟩, ⟨⟨⟩, ⟨⟩, ⟨⟩⟩⟩ := x2
    rfl

end decl
